import Mathlib

/-!
Shallow embedding of torcheeg/model_selection/split_groupby_trial.py.

The function train_test_split_groupby_trial splits the metadata table of a
dataset (dataset.info, a pandas DataFrame) into a train table and a test
table, group by group, where a group is one (subject_id, trial_id) pair.
On a fresh split_path it computes the split, writes train.csv and test.csv
under the path, re-reads them and returns two shallow copies of the dataset
carrying the two tables; on an existing split_path it skips the computation
and only re-reads the two files.

Modelling decisions, each noted again at the definition it concerns:
- a metadata row is a record of the two grouping columns plus the remaining
  columns as (name, value) pairs carried verbatim;
- pandas reset_index() moves the original positional index of each filtered
  row into a fresh leading column named "index", modelled by the IRow type;
- sklearn model_selection.train_test_split on np.arange(n) is modelled by
  sk_train_test_split, with the numpy RandomState permutation abstracted as
  a function of the seed; the validation of _validate_shuffle_split is
  modelled too: the call returns an error (ValueError) when the resulting
  train set would be empty, which aborts the whole split; claims that treat
  the split routine as a black box quantify over an arbitrary fallible
  split function instead;
- the filesystem is a list of split directories, each holding an optional
  pair of persisted tables; writing csv files and reading them back is
  modelled as the identity round trip;
- Python set(...) over a column is modelled as List.dedup; CPython set
  iteration order over fixed contents is deterministic but implementation
  defined, and no statement below depends on which enumeration order the
  set produces.
-/

set_option autoImplicit false

namespace SplitGroupbyTrial

/-- A row of the metadata table dataset.info: the two grouping columns
subject_id and trial_id, plus all remaining columns as (name, value)
pairs, carried verbatim by the split. -/
structure Row where
  subject_id : Nat
  trial_id : Nat
  data : List (String × String)
deriving DecidableEq

/-- A row of cur_info after reset_index(): pandas moves the original
positional index of the row into a fresh leading column named "index",
which then persists through iloc, concat, to_csv and read_csv. -/
structure IRow where
  index : Nat
  row : Row
deriving DecidableEq

/-- Column names of a source metadata row, in table order. -/
def Row.columns (r : Row) : List String :=
  "subject_id" :: "trial_id" :: r.data.map Prod.fst

/-- Column names of an output metadata row: reset_index() prepends the
column named "index" to the columns of the source table. -/
def IRow.columns (r : IRow) : List String :=
  "index" :: r.row.columns

/-- Test-set size of sklearn _validate_shuffle_split for a float test_size
and the default train_size=None: n_test = ceil(test_size * n).  The float
fraction is modelled as the exact fraction num / den (0.2 is 1 / 5), and
the ceiling of (num * n) / den is computed by Nat ceiling division; the
theorem n_test_of_eq_ceil below checks this against the mathematical
ceiling.  At every concrete input appearing below the binary float
computation of sklearn yields the same count. -/
def n_test_of (num den n : Nat) : Nat := (num * n + (den - 1)) / den

/-- Train-set size of sklearn _validate_shuffle_split for train_size=None:
n_train = n - n_test. -/
def n_train_of (num den n : Nat) : Nat := n - n_test_of num den n

/-- sklearn model_selection.train_test_split applied to np.arange(n), as
the source calls it once per group.  _validate_shuffle_split raises
ValueError when the resulting train set would be empty (n_train == 0,
which at a float test_size happens exactly for 0- and 1-row groups);
the error aborts the call before any index selection.  The argument perm
models the numpy RandomState: given the seed (random_state) and n it
returns the value of rng.permutation(n); it is a plain function,
reflecting that a fixed seed makes the permutation deterministic.  With
shuffle=True, ShuffleSplit takes test = permutation[:n_test] and then
train = permutation[n_test:n_test + n_train]; with shuffle=False the
routine takes train = np.arange(n_train) and
test = np.arange(n_train, n_train + n_test), and neither perm nor
random_state is consulted. -/
def sk_train_test_split (perm : Option Nat → Nat → List Nat)
    (ts_num ts_den : Nat) (shuffle : Bool) (random_state : Option Nat)
    (n : Nat) : Except String (List Nat × List Nat) :=
  let nt := n_test_of ts_num ts_den n
  let ntr := n_train_of ts_num ts_den n
  if ntr = 0 then
    .error "ValueError: the resulting train set will be empty"
  else if shuffle then
    let p := perm random_state n
    .ok ((p.drop nt).take ntr, p.take nt)
  else
    .ok (List.range ntr, (List.range (ntr + nt)).drop ntr)

/-- Tag each row with its positional index starting from k: the index
labels of the rows of the DataFrame. -/
def withIdx : Nat → List Row → List (Nat × Row)
  | _, [] => []
  | k, r :: rs => (k, r) :: withIdx (k + 1) rs

/-- The boolean-mask filter of the source followed by reset_index(): the
rows of the group (s, t), each carrying its original position in the
fresh "index" column. -/
def groupOf (info : List Row) (s t : Nat) : List IRow :=
  ((withIdx 0 info).filter fun p =>
      p.2.subject_id == s && p.2.trial_id == t).map fun p => ⟨p.1, p.2⟩

/-- cur_info.iloc[idx]: select rows of the group table by local position. -/
def takeRows (cur : List IRow) (idx : List Nat) : List IRow :=
  idx.filterMap fun i => cur[i]?

/-- The index pair a fallible split routine returned at n, defaulting to
empty lists on the error branch.  The computing loop (splitStep) aborts on
the error branch, so a run that completes never exercises the default;
idxOf is used to write the pieces of a completed run as plain functions. -/
def idxOf (split : Nat → Except String (List Nat × List Nat)) (n : Nat) :
    List Nat × List Nat :=
  match split n with
  | .ok idx => idx
  | .error _ => ([], [])

/-- The rows cur_info.iloc[train_index] contributed by the iteration of
the nested loop at the pair st, in a run in which that call returned. -/
def trainPiece (split : Nat → Except String (List Nat × List Nat))
    (info : List Row) (st : Nat × Nat) : List IRow :=
  takeRows (groupOf info st.1 st.2)
    (idxOf split (groupOf info st.1 st.2).length).1

/-- The rows cur_info.iloc[test_index] contributed by the iteration of
the nested loop at the pair st, in a run in which that call returned. -/
def testPiece (split : Nat → Except String (List Nat × List Nat))
    (info : List Row) (st : Nat × Nat) : List IRow :=
  takeRows (groupOf info st.1 st.2)
    (idxOf split (groupOf info st.1 st.2).length).2

/-- One iteration of the nested loop body: a ValueError raised by the
split routine aborts the loop; otherwise the accumulators train_info and
test_info start as None, become singleton chunk lists on the first
iteration and are appended to afterwards. -/
def splitStep (split : Nat → Except String (List Nat × List Nat))
    (info : List Row)
    (acc : Except String (Option (List (List IRow) × List (List IRow))))
    (st : Nat × Nat) :
    Except String (Option (List (List IRow) × List (List IRow))) :=
  match acc with
  | .error e => .error e
  | .ok accOpt =>
    match split (groupOf info st.1 st.2).length with
    | .error e => .error e
    | .ok idx =>
      let tr := takeRows (groupOf info st.1 st.2) idx.1
      let te := takeRows (groupOf info st.1 st.2) idx.2
      match accOpt with
      | none => .ok (some ([tr], [te]))
      | some (a, b) => .ok (some (a ++ [tr], b ++ [te]))

/-- The iteration order of the nested loops: for subject in subjects, for
trial_id in trial_ids, yielding the full cross product of the two axes. -/
def pairsOf (subjects trial_ids : List Nat) : List (Nat × Nat) :=
  subjects.flatMap fun s => trial_ids.map fun t => (s, t)

/-- The enumeration list(set(info[subject_id])), modelled as dedup. -/
def subjectsOf (info : List Row) : List Nat :=
  (info.map Row.subject_id).dedup

/-- The enumeration list(set(info[trial_id])), modelled as dedup. -/
def trialsOf (info : List Row) : List Nat :=
  (info.map Row.trial_id).dedup

/-- The computation performed on a fresh split_path: enumerate distinct
subjects and distinct trial ids, run the nested loop accumulating the
per-group pieces, then pd.concat each accumulator.  A ValueError raised
by a per-group split propagates; if the loop never ran, the accumulators
are still None when pd.concat is reached, which raises a TypeError. -/
def compute_split (split : Nat → Except String (List Nat × List Nat))
    (info : List Row) : Except String (List IRow × List IRow) :=
  match (pairsOf (subjectsOf info) (trialsOf info)).foldl
      (splitStep split info) (.ok none) with
  | .error e => .error e
  | .ok none =>
      .error "TypeError: first argument must be an iterable of pandas objects"
  | .ok (some ab) => .ok (ab.1.flatten, ab.2.flatten)

/-- On-disk state of one split directory: none means the directory exists
but train.csv and test.csv were never written; some (tr, te) means the
two csv files hold those tables.  Writing the csv files and reading them
back is modelled as the identity round trip. -/
abbrev Manifest := Option (List IRow × List IRow)

/-- The filesystem: the split directories present on disk, newest first. -/
abbrev FS := List (String × Manifest)

/-- os.path.exists plus directory content lookup. -/
def fsFind (path : String) : FS → Option Manifest
  | [] => none
  | (p, m) :: rest => if p = path then some m else fsFind path rest

/-- The input dataset: payload stands for every attribute other than info
(in particular the underlying sample storage), all of which copy(dataset)
shares between the copies; info is the metadata table. -/
structure Dataset where
  payload : Nat
  info : List Row
deriving DecidableEq

/-- A returned dataset: the same shared payload, and an info table read
back from a csv file, hence made of IRow rows carrying the added "index"
column. -/
structure IDataset where
  payload : Nat
  info : List IRow
deriving DecidableEq

/-- The function train_test_split_groupby_trial of the source.  split is
the per-group index splitter (sk_train_test_split with its parameters
applied, or an arbitrary fallible black box where a claim assumes only
its properties); split_path is taken as given, since the split_path=None
branch only generates a fresh random path and the statements below
quantify over fresh paths explicitly.  On a fresh path the directory is
created first, so a failing computation (ValueError of a per-group split,
or TypeError of pd.concat on an empty table) still leaves the directory
behind, recorded as a none manifest. -/
def train_test_split_groupby_trial
    (split : Nat → Except String (List Nat × List Nat))
    (dataset : Dataset) (split_path : String) (fs : FS) :
    Except String (IDataset × IDataset) × FS :=
  match fsFind split_path fs with
  | some m =>
      match m with
      | some (tr, te) =>
          (.ok (⟨dataset.payload, tr⟩, ⟨dataset.payload, te⟩), fs)
      | none => (.error "FileNotFoundError: train.csv", fs)
  | none =>
      match compute_split split dataset.info with
      | .error e => (.error e, (split_path, none) :: fs)
      | .ok (tr, te) =>
          (.ok (⟨dataset.payload, tr⟩, ⟨dataset.payload, te⟩),
            (split_path, some (tr, te)) :: fs)

/-- The rows of an output table that belong to the group (s, t). -/
def filterGroup (s t : Nat) (l : List IRow) : List IRow :=
  l.filter fun ir => ir.row.subject_id == s && ir.row.trial_id == t

/-- The set of row identities (original positions, read off the "index"
column) of the group (s, t) rows of an output table. -/
def groupIdx (s t : Nat) (l : List IRow) : Finset Nat :=
  ((filterGroup s t l).map IRow.index).toFinset

/-- The train table of a completed fresh computation, written as the
concatenation of the per-group train pieces in cross-product enumeration
order. -/
def trainTable (split : Nat → Except String (List Nat × List Nat))
    (info : List Row) : List IRow :=
  ((pairsOf (subjectsOf info) (trialsOf info)).map (trainPiece split info)).flatten

/-- The test table of a completed fresh computation, written as the
concatenation of the per-group test pieces in cross-product enumeration
order. -/
def testTable (split : Nat → Except String (List Nat × List Nat))
    (info : List Row) : List IRow :=
  ((pairsOf (subjectsOf info) (trialsOf info)).map (testPiece split info)).flatten

/-! Concrete instances used by the closed statements below. -/

/-- A permutation source for concrete runs: the identity permutation for
every seed.  Statements that depend on shuffling quantify over an
arbitrary permutation source instead. -/
def perm0 : Option Nat → Nat → List Nat := fun _ n => List.range n

/-- The split routine at its source defaults: test_size=0.2 (the fraction
1/5), shuffle=False, random_state=None. -/
def split₀ : Nat → Except String (List Nat × List Nat) :=
  sk_train_test_split perm0 1 5 false none

/-- The split routine with a different test_size (0.5), used to show that
a second call on an existing split_path ignores its parameters. -/
def split₁ : Nat → Except String (List Nat × List Nat) :=
  sk_train_test_split perm0 1 2 false none

/-- A four-row metadata table: two rows of subject 1 trial 1 followed by
two rows of subject 2 trial 1.  Every cross-product group has two rows,
so sklearn succeeds on each (n_train = 1). -/
def exD : Dataset := ⟨0, [⟨1, 1, []⟩, ⟨1, 1, []⟩, ⟨2, 1, []⟩, ⟨2, 1, []⟩]⟩

/-- A four-row table whose groups interleave: subject 1 at positions 0
and 3, subject 2 at positions 1 and 2.  CPython would enumerate this set
in some deterministic order; the dedup model enumerates subject 2 first. -/
def demoD : Dataset := ⟨0, [⟨1, 1, []⟩, ⟨2, 1, []⟩, ⟨2, 1, []⟩, ⟨1, 1, []⟩]⟩

/-- A one-row table with one extra column named valence. -/
def cexRow : Row := ⟨1, 1, [("valence", "5")]⟩

/-- A ten-row single-group table (subject 3, trial 7). -/
def tenD : Dataset := ⟨0, List.replicate 10 ⟨3, 7, []⟩⟩

/-- The train rows of the ten-row table at the source defaults: the first
eight rows, each tagged with its original position. -/
def tenTrain : List IRow :=
  [⟨0, ⟨3, 7, []⟩⟩, ⟨1, ⟨3, 7, []⟩⟩, ⟨2, ⟨3, 7, []⟩⟩, ⟨3, ⟨3, 7, []⟩⟩,
    ⟨4, ⟨3, 7, []⟩⟩, ⟨5, ⟨3, 7, []⟩⟩, ⟨6, ⟨3, 7, []⟩⟩, ⟨7, ⟨3, 7, []⟩⟩]

/-- The test rows of the ten-row table at the source defaults: the last
two rows. -/
def tenTest : List IRow := [⟨8, ⟨3, 7, []⟩⟩, ⟨9, ⟨3, 7, []⟩⟩]

/-! Basic facts about the index tagging and row selection. -/

theorem withIdx_map_snd : ∀ (k : Nat) (l : List Row),
    (withIdx k l).map Prod.snd = l
  | _, [] => rfl
  | k, r :: rs => by simp [withIdx, withIdx_map_snd (k + 1) rs]

theorem withIdx_map_fst : ∀ (k : Nat) (l : List Row),
    (withIdx k l).map Prod.fst = List.range' k l.length
  | _, [] => rfl
  | k, r :: rs => by
      simp [withIdx, withIdx_map_fst (k + 1) rs, List.range'_succ]

theorem withIdx_length (k : Nat) (l : List Row) :
    (withIdx k l).length = l.length := by
  simpa using congrArg List.length (withIdx_map_snd k l)

theorem mem_withIdx (l : List Row) : ∀ (k : Nat) (p : Nat × Row),
    p ∈ withIdx k l ↔ ∃ j, l[j]? = some p.2 ∧ p.1 = k + j := by
  induction l with
  | nil => intro k p; simp [withIdx]
  | cons r rs ih =>
    intro k p
    simp only [withIdx, List.mem_cons, ih (k + 1)]
    constructor
    · rintro (rfl | ⟨j, hj, hp⟩)
      · exact ⟨0, by simp⟩
      · exact ⟨j + 1, by simpa using hj, by omega⟩
    · rintro ⟨j, hj, hp⟩
      cases j with
      | zero =>
        left
        simp only [List.getElem?_cons_zero, Option.some.injEq] at hj
        cases p
        simp_all
      | succ j =>
        right
        exact ⟨j, by simpa using hj, by omega⟩

theorem filterMap_getElem_range' (l : List IRow) :
    ∀ (b a : Nat),
      (List.range' a b).filterMap (fun i => l[i]?) = (l.drop a).take b := by
  intro b
  induction b with
  | zero => intro a; simp
  | succ b ih =>
    intro a
    rw [List.range'_succ a b 1, List.filterMap_cons]
    by_cases h : a < l.length
    · rw [List.getElem?_eq_getElem h, ih (a + 1), List.drop_eq_getElem_cons h]
      rfl
    · have h1 : l[a]? = none := List.getElem?_eq_none (le_of_not_lt h)
      have h2 : l.drop a = [] := List.drop_eq_nil_of_le (le_of_not_lt h)
      have h3 : l.drop (a + 1) = [] := List.drop_eq_nil_of_le (by omega)
      rw [h1, ih (a + 1), h2, h3]
      simp

theorem takeRows_range' (g : List IRow) (a b : Nat) :
    takeRows g (List.range' a b) = (g.drop a).take b :=
  filterMap_getElem_range' g b a

theorem takeRows_range (g : List IRow) (k : Nat) :
    takeRows g (List.range k) = g.take k := by
  rw [List.range_eq_range', takeRows_range', List.drop_zero]

theorem takeRows_range_all (g : List IRow) :
    takeRows g (List.range g.length) = g := by
  rw [takeRows_range, List.take_length]

theorem takeRows_range_drop (g : List IRow) (a b : Nat) :
    takeRows g ((List.range (a + b)).drop a) = (g.drop a).take b := by
  have h : (List.range (a + b)).drop a = List.range' a b := by
    rw [List.range_eq_range', Nat.add_comm a b, ← List.range'_append_1 0 a b,
      Nat.zero_add, List.drop_left' (by simp)]
  rw [h, takeRows_range']

theorem mem_takeRows {g : List IRow} {idx : List Nat} {x : IRow}
    (h : x ∈ takeRows g idx) : x ∈ g := by
  obtain ⟨i, _, hi⟩ := List.mem_filterMap.mp h
  exact List.getElem?_mem hi

theorem mem_groupOf {info : List Row} {s t : Nat} {x : IRow}
    (h : x ∈ groupOf info s t) :
    x.row.subject_id = s ∧ x.row.trial_id = t ∧ info[x.index]? = some x.row := by
  obtain ⟨p, hp, hx⟩ := List.mem_map.mp h
  obtain ⟨hmem, hpred⟩ := List.mem_filter.mp hp
  simp only [Bool.and_eq_true, beq_iff_eq] at hpred
  obtain ⟨j, hj, hpj⟩ := (mem_withIdx info 0 p).mp hmem
  subst hx
  refine ⟨hpred.1, hpred.2, ?_⟩
  simpa [hpj] using hj

theorem nodup_range'_one (s n : Nat) : (List.range' s n).Nodup := by
  have h1 := List.nodup_range (n + s)
  have h2 : List.Sublist (List.range' s n) (List.range (n + s)) := by
    rw [List.range_eq_range', ← List.range'_append_1 0 s n, Nat.zero_add]
    exact List.sublist_append_right _ _
  exact h1.sublist h2

theorem groupOf_map_index_nodup (info : List Row) (s t : Nat) :
    ((groupOf info s t).map IRow.index).Nodup := by
  have h1 : (groupOf info s t).map IRow.index =
      ((withIdx 0 info).filter fun p =>
        p.2.subject_id == s && p.2.trial_id == t).map Prod.fst := by
    unfold groupOf
    rw [List.map_map]
    rfl
  rw [h1]
  have hsub := ((withIdx 0 info).filter_sublist
    (p := fun p => p.2.subject_id == s && p.2.trial_id == t)).map Prod.fst
  rw [withIdx_map_fst] at hsub
  exact (nodup_range'_one 0 info.length).sublist hsub

/-! Facts about the cross-product enumeration and the accumulation loop. -/

theorem mem_pairsOf {S T : List Nat} {s t : Nat} :
    (s, t) ∈ pairsOf S T ↔ s ∈ S ∧ t ∈ T := by
  simp [pairsOf]

theorem pairsOf_nodup {S T : List Nat} (hS : S.Nodup) (hT : T.Nodup) :
    (pairsOf S T).Nodup := by
  have h : pairsOf S T = S ×ˢ T := rfl
  rw [h]
  exact hS.product hT

theorem pairsOf_ne_nil {S T : List Nat} (hS : S ≠ []) (hT : T ≠ []) :
    pairsOf S T ≠ [] := by
  cases S with
  | nil => exact absurd rfl hS
  | cons s S =>
    cases T with
    | nil => exact absurd rfl hT
    | cons t T => simp [pairsOf]

theorem subjectsOf_ne_nil {info : List Row} (h : info ≠ []) :
    subjectsOf info ≠ [] := by
  unfold subjectsOf
  intro hc
  rw [List.dedup_eq_nil, List.map_eq_nil_iff] at hc
  exact h hc

theorem trialsOf_ne_nil {info : List Row} (h : info ≠ []) :
    trialsOf info ≠ [] := by
  unfold trialsOf
  intro hc
  rw [List.dedup_eq_nil, List.map_eq_nil_iff] at hc
  exact h hc

theorem mem_pairsOf_of_groupOf_ne_nil {info : List Row} {s t : Nat}
    (h : groupOf info s t ≠ []) :
    (s, t) ∈ pairsOf (subjectsOf info) (trialsOf info) := by
  obtain ⟨x, hx⟩ := List.exists_mem_of_ne_nil _ h
  obtain ⟨h1, h2, h3⟩ := mem_groupOf hx
  have hr : x.row ∈ info := List.getElem?_mem h3
  refine mem_pairsOf.mpr ⟨?_, ?_⟩
  · exact List.mem_dedup.mpr (List.mem_map.mpr ⟨x.row, hr, h1⟩)
  · exact List.mem_dedup.mpr (List.mem_map.mpr ⟨x.row, hr, h2⟩)

theorem idxOf_eq_of_ok {split : Nat → Except String (List Nat × List Nat)}
    {n : Nat} {idx : List Nat × List Nat} (h : split n = .ok idx) :
    idxOf split n = idx := by
  unfold idxOf
  rw [h]

theorem foldl_splitStep_error
    (split : Nat → Except String (List Nat × List Nat)) (info : List Row) :
    ∀ (pairs : List (Nat × Nat)) (e : String),
      pairs.foldl (splitStep split info) (.error e) = .error e := by
  intro pairs
  induction pairs with
  | nil => intro e; rfl
  | cons q rest ih =>
    intro e
    rw [List.foldl_cons]
    exact ih e

theorem foldl_splitStep_ok_some
    (split : Nat → Except String (List Nat × List Nat)) (info : List Row) :
    ∀ (pairs : List (Nat × Nat)) (a b : List (List IRow)),
      (∀ q ∈ pairs, ∃ idx, split (groupOf info q.1 q.2).length = .ok idx) →
      pairs.foldl (splitStep split info) (.ok (some (a, b))) =
        .ok (some (a ++ pairs.map (trainPiece split info),
          b ++ pairs.map (testPiece split info))) := by
  intro pairs
  induction pairs with
  | nil => intro a b _; simp
  | cons q rest ih =>
    intro a b hall
    obtain ⟨idx, hidx⟩ := hall q (List.mem_cons_self q rest)
    rw [List.foldl_cons]
    have hstep : splitStep split info (.ok (some (a, b))) q =
        .ok (some (a ++ [trainPiece split info q],
          b ++ [testPiece split info q])) := by
      unfold splitStep trainPiece testPiece
      rw [hidx, idxOf_eq_of_ok hidx]
    rw [hstep, ih _ _ (fun q' h' => hall q' (List.mem_cons_of_mem q h'))]
    simp

theorem foldl_splitStep_ok_none
    (split : Nat → Except String (List Nat × List Nat)) (info : List Row)
    (pairs : List (Nat × Nat)) (hne : pairs ≠ [])
    (hall : ∀ q ∈ pairs, ∃ idx, split (groupOf info q.1 q.2).length = .ok idx) :
    pairs.foldl (splitStep split info) (.ok none) =
      .ok (some (pairs.map (trainPiece split info),
        pairs.map (testPiece split info))) := by
  cases pairs with
  | nil => exact absurd rfl hne
  | cons q rest =>
    obtain ⟨idx, hidx⟩ := hall q (List.mem_cons_self q rest)
    rw [List.foldl_cons]
    have hstep : splitStep split info (.ok none) q =
        .ok (some ([trainPiece split info q], [testPiece split info q])) := by
      unfold splitStep trainPiece testPiece
      rw [hidx, idxOf_eq_of_ok hidx]
    rw [hstep,
      foldl_splitStep_ok_some split info rest [trainPiece split info q]
        [testPiece split info q]
        (fun q' h' => hall q' (List.mem_cons_of_mem q h'))]
    simp

theorem foldl_splitStep_ok_all
    (split : Nat → Except String (List Nat × List Nat)) (info : List Row) :
    ∀ (pairs : List (Nat × Nat))
      (acc res : Option (List (List IRow) × List (List IRow))),
      pairs.foldl (splitStep split info) (.ok acc) = .ok res →
      ∀ q ∈ pairs, ∃ idx, split (groupOf info q.1 q.2).length = .ok idx := by
  intro pairs
  induction pairs with
  | nil =>
    intro acc res _ q hq
    simp at hq
  | cons p rest ih =>
    intro acc res hfold q hq
    rw [List.foldl_cons] at hfold
    cases hsp : split (groupOf info p.1 p.2).length with
    | error e =>
      exfalso
      have hstep : splitStep split info (.ok acc) p = .error e := by
        unfold splitStep
        rw [hsp]
      rw [hstep, foldl_splitStep_error] at hfold
      simp at hfold
    | ok idx =>
      rcases List.mem_cons.mp hq with rfl | hq'
      · exact ⟨idx, hsp⟩
      · have hstep : ∃ acc', splitStep split info (.ok acc) p = .ok acc' := by
          unfold splitStep
          rw [hsp]
          cases acc with
          | none => exact ⟨_, rfl⟩
          | some ab =>
            obtain ⟨x, y⟩ := ab
            exact ⟨_, rfl⟩
        obtain ⟨acc', hacc'⟩ := hstep
        rw [hacc'] at hfold
        exact ih acc' res hfold q hq'

theorem compute_split_ok_inv
    {split : Nat → Except String (List Nat × List Nat)} {info : List Row}
    {tr te : List IRow}
    (h : compute_split split info = .ok (tr, te)) :
    tr = trainTable split info ∧ te = testTable split info ∧
      ∀ q ∈ pairsOf (subjectsOf info) (trialsOf info),
        ∃ idx, split (groupOf info q.1 q.2).length = .ok idx := by
  unfold compute_split at h
  cases hf : (pairsOf (subjectsOf info) (trialsOf info)).foldl
      (splitStep split info) (.ok none) with
  | error e =>
    rw [hf] at h
    simp at h
  | ok o =>
    rw [hf] at h
    cases o with
    | none => simp at h
    | some ab =>
      obtain ⟨x, y⟩ := ab
      simp only [Except.ok.injEq, Prod.mk.injEq] at h
      have hall := foldl_splitStep_ok_all split info _ none (some (x, y)) hf
      have hne : pairsOf (subjectsOf info) (trialsOf info) ≠ [] := by
        intro hp
        rw [hp] at hf
        simp at hf
      have hchar := foldl_splitStep_ok_none split info _ hne hall
      rw [hf] at hchar
      simp only [Except.ok.injEq, Option.some.injEq, Prod.mk.injEq] at hchar
      refine ⟨?_, ?_, hall⟩
      · rw [← h.1, hchar.1]
        rfl
      · rw [← h.2, hchar.2]
        rfl

theorem compute_split_nil (split : Nat → Except String (List Nat × List Nat)) :
    compute_split split [] =
      .error "TypeError: first argument must be an iterable of pandas objects" :=
  rfl

/-! Characterization of the top-level function. -/

theorem tts_fresh_ok_inv
    {split : Nat → Except String (List Nat × List Nat)} {d : Dataset}
    {path : String} {fs : FS} {a b : IDataset} {fs' : FS}
    (hfresh : fsFind path fs = none)
    (hok : train_test_split_groupby_trial split d path fs = (.ok (a, b), fs')) :
    a = ⟨d.payload, trainTable split d.info⟩ ∧
      b = ⟨d.payload, testTable split d.info⟩ ∧
      fs' = (path, some (trainTable split d.info, testTable split d.info)) :: fs ∧
      ∀ q ∈ pairsOf (subjectsOf d.info) (trialsOf d.info),
        ∃ idx, split (groupOf d.info q.1 q.2).length = .ok idx := by
  unfold train_test_split_groupby_trial at hok
  rw [hfresh] at hok
  cases hc : compute_split split d.info with
  | error e =>
    rw [hc] at hok
    simp at hok
  | ok p =>
    obtain ⟨tr, te⟩ := p
    rw [hc] at hok
    simp only [Prod.mk.injEq, Except.ok.injEq] at hok
    obtain ⟨⟨ha, hb⟩, hfs⟩ := hok
    obtain ⟨htr, hte, hall⟩ := compute_split_ok_inv hc
    subst htr
    subst hte
    exact ⟨ha.symm, hb.symm, hfs.symm, hall⟩

/-! Extraction of the rows of one group from the concatenated output. -/

theorem filter_flatten_pieces (p : IRow → Bool) (L : List (List IRow)) :
    (L.flatten).filter p = (L.map fun l => l.filter p).flatten := by
  induction L with
  | nil => rfl
  | cons l L ih => simp [List.filter_append, ih]

theorem mem_trainPiece_groupOf
    {split : Nat → Except String (List Nat × List Nat)}
    {info : List Row} {q : Nat × Nat} {x : IRow}
    (h : x ∈ trainPiece split info q) : x ∈ groupOf info q.1 q.2 :=
  mem_takeRows h

theorem mem_testPiece_groupOf
    {split : Nat → Except String (List Nat × List Nat)}
    {info : List Row} {q : Nat × Nat} {x : IRow}
    (h : x ∈ testPiece split info q) : x ∈ groupOf info q.1 q.2 :=
  mem_takeRows h

theorem filterGroup_eq_self {s t : Nat} {info : List Row} (piece : List IRow)
    (hmem : ∀ x ∈ piece, x ∈ groupOf info s t) :
    filterGroup s t piece = piece := by
  apply List.filter_eq_self.mpr
  intro x hx
  obtain ⟨h1, h2, _⟩ := mem_groupOf (hmem x hx)
  simp [h1, h2]

theorem filterGroup_eq_nil {s t s' t' : Nat} {info : List Row}
    (piece : List IRow) (hmem : ∀ x ∈ piece, x ∈ groupOf info s' t')
    (hne : (s', t') ≠ (s, t)) :
    filterGroup s t piece = [] := by
  apply List.filter_eq_nil_iff.mpr
  intro x hx
  obtain ⟨h1, h2, _⟩ := mem_groupOf (hmem x hx)
  simp only [Bool.and_eq_true, beq_iff_eq, not_and]
  intro hs ht
  exact hne (by rw [← h1, ← h2, hs, ht])

theorem flatten_map_eq_single (f : Nat × Nat → List IRow) (s t : Nat) :
    ∀ (pairs : List (Nat × Nat)), pairs.Nodup →
      (∀ q ∈ pairs, q ≠ (s, t) → f q = []) →
      (pairs.map f).flatten = if (s, t) ∈ pairs then f (s, t) else [] := by
  intro pairs
  induction pairs with
  | nil => simp
  | cons q rest ih =>
    intro hnd hf
    obtain ⟨hq, hrest⟩ := List.nodup_cons.mp hnd
    by_cases hqe : q = (s, t)
    · subst hqe
      have hrest0 : ∀ q' ∈ rest, q' ≠ (s, t) → f q' = [] :=
        fun q' h' hne' => hf q' (List.mem_cons_of_mem _ h') hne'
      rw [List.map_cons, List.flatten_cons, ih hrest hrest0]
      have hnotin : (s, t) ∉ rest := hq
      simp [hnotin]
    · rw [List.map_cons, List.flatten_cons,
        hf q (List.mem_cons_self q rest) hqe,
        ih hrest (fun q' h' hne' => hf q' (List.mem_cons_of_mem q h') hne')]
      have hiff : ((s, t) ∈ q :: rest) ↔ ((s, t) ∈ rest) := by
        constructor
        · intro h
          rcases List.mem_cons.mp h with h | h
          · exact absurd h.symm hqe
          · exact h
        · exact fun h => List.mem_cons_of_mem _ h
      by_cases hmem : (s, t) ∈ rest <;> simp [hmem, hiff]

theorem filterGroup_trainTable
    (split : Nat → Except String (List Nat × List Nat))
    (info : List Row) (s t : Nat) :
    filterGroup s t (trainTable split info) =
      if (s, t) ∈ pairsOf (subjectsOf info) (trialsOf info)
      then trainPiece split info (s, t) else [] := by
  unfold trainTable filterGroup
  rw [filter_flatten_pieces, List.map_map]
  have hres := flatten_map_eq_single
    (fun q => filterGroup s t (trainPiece split info q)) s t
    (pairsOf (subjectsOf info) (trialsOf info))
    (pairsOf_nodup (List.nodup_dedup _) (List.nodup_dedup _))
    (fun q _ hne => filterGroup_eq_nil (trainPiece split info q)
      (fun x hx => mem_trainPiece_groupOf hx) (by simpa using hne))
  rw [show ((fun l => List.filter (fun ir =>
      ir.row.subject_id == s && ir.row.trial_id == t) l) ∘ trainPiece split info) =
      (fun q => filterGroup s t (trainPiece split info q)) from rfl, hres]
  by_cases hmem : (s, t) ∈ pairsOf (subjectsOf info) (trialsOf info)
  · simp only [hmem, if_true]
    exact filterGroup_eq_self (trainPiece split info (s, t))
      (fun x hx => mem_trainPiece_groupOf hx)
  · simp [hmem]

theorem filterGroup_testTable
    (split : Nat → Except String (List Nat × List Nat))
    (info : List Row) (s t : Nat) :
    filterGroup s t (testTable split info) =
      if (s, t) ∈ pairsOf (subjectsOf info) (trialsOf info)
      then testPiece split info (s, t) else [] := by
  unfold testTable filterGroup
  rw [filter_flatten_pieces, List.map_map]
  have hres := flatten_map_eq_single
    (fun q => filterGroup s t (testPiece split info q)) s t
    (pairsOf (subjectsOf info) (trialsOf info))
    (pairsOf_nodup (List.nodup_dedup _) (List.nodup_dedup _))
    (fun q _ hne => filterGroup_eq_nil (testPiece split info q)
      (fun x hx => mem_testPiece_groupOf hx) (by simpa using hne))
  rw [show ((fun l => List.filter (fun ir =>
      ir.row.subject_id == s && ir.row.trial_id == t) l) ∘ testPiece split info) =
      (fun q => filterGroup s t (testPiece split info q)) from rfl, hres]
  by_cases hmem : (s, t) ∈ pairsOf (subjectsOf info) (trialsOf info)
  · simp only [hmem, if_true]
    exact filterGroup_eq_self (testPiece split info (s, t))
      (fun x hx => mem_testPiece_groupOf hx)
  · simp [hmem]

theorem groupOf_eq_nil_of_not_mem_pairsOf {info : List Row} {s t : Nat}
    (h : (s, t) ∉ pairsOf (subjectsOf info) (trialsOf info)) :
    groupOf info s t = [] := by
  by_contra hne
  exact h (mem_pairsOf_of_groupOf_ne_nil hne)

/-- When the split call on a group returned a pair whose two index lists
together are a permutation of the index range, the train piece and the
test piece of that group together are a permutation of the group. -/
theorem pieces_perm_groupOf
    (split : Nat → Except String (List Nat × List Nat))
    (info : List Row) (s t : Nat) (idx : List Nat × List Nat)
    (hidx : split (groupOf info s t).length = .ok idx)
    (hperm : ((idx.1 ++ idx.2)).Perm (List.range (groupOf info s t).length)) :
    (trainPiece split info (s, t) ++ testPiece split info (s, t)).Perm
      (groupOf info s t) := by
  show (takeRows (groupOf info s t)
        (idxOf split (groupOf info s t).length).1 ++
      takeRows (groupOf info s t)
        (idxOf split (groupOf info s t).length).2).Perm
    (groupOf info s t)
  rw [idxOf_eq_of_ok hidx]
  unfold takeRows
  rw [← List.filterMap_append]
  have hpm := hperm.filterMap (fun i => (groupOf info s t)[i]?)
  have hall : (List.range (groupOf info s t).length).filterMap
      (fun i => (groupOf info s t)[i]?) = groupOf info s t :=
    takeRows_range_all _
  rw [hall] at hpm
  exact hpm

/-! Arithmetic facts about the modelled sklearn split. -/

/-- Sanity check of the Nat ceiling division against the mathematical
ceiling: n_test_of num den n is the ceiling of (num * n) / den, the count
sklearn computes as ceil(test_size * n_samples). -/
theorem n_test_of_eq_ceil (num den n : Nat) (hden : 0 < den) :
    (n_test_of num den n : ℤ) = ⌈((num : ℚ) * n) / den⌉ := by
  have hden' : (0 : ℚ) < den := by exact_mod_cast hden
  have h1 := Nat.div_add_mod (num * n + (den - 1)) den
  have h2 : (num * n + (den - 1)) % den < den := Nat.mod_lt _ hden
  have hhigh : num * n ≤ den * n_test_of num den n := by
    unfold n_test_of
    omega
  have hlow : den * n_test_of num den n + 1 ≤ num * n + den := by
    unfold n_test_of
    omega
  rw [eq_comm, Int.ceil_eq_iff]
  constructor
  · rw [lt_div_iff₀ hden']
    have hc : (den : ℚ) * (n_test_of num den n : ℚ) + 1 ≤ (num : ℚ) * n + den := by
      exact_mod_cast hlow
    push_cast
    nlinarith
  · rw [div_le_iff₀ hden']
    have hc : ((num : ℚ) * n) ≤ (den : ℚ) * (n_test_of num den n : ℚ) := by
      exact_mod_cast hhigh
    push_cast
    nlinarith

theorem n_test_of_le (num den n : Nat) (hnum : num ≤ den) (hden : 0 < den) :
    n_test_of num den n ≤ n := by
  unfold n_test_of
  have h := Nat.mul_le_mul_right n hnum
  rw [Nat.div_le_iff_le_mul_add_pred hden]
  omega

theorem n_train_add_n_test (num den n : Nat) (hnum : num ≤ den)
    (hden : 0 < den) :
    n_train_of num den n + n_test_of num den n = n := by
  have := n_test_of_le num den n hnum hden
  unfold n_train_of
  omega

/-- The ValueError branch of the modelled sklearn split: raised exactly
when the resulting train set would be empty, for any shuffle setting. -/
theorem sk_error_of_ntrain_eq_zero (perm : Option Nat → Nat → List Nat)
    (num den : Nat) (sh : Bool) (rs : Option Nat) (n : Nat)
    (h : n_train_of num den n = 0) :
    sk_train_test_split perm num den sh rs n =
      .error "ValueError: the resulting train set will be empty" := by
  simp only [sk_train_test_split]
  rw [if_pos h]

/-- The successful no-shuffle branch of the modelled sklearn split. -/
theorem sk_ok_of_ntrain_ne_zero (perm : Option Nat → Nat → List Nat)
    (num den : Nat) (rs : Option Nat) (n : Nat)
    (h : n_train_of num den n ≠ 0) :
    sk_train_test_split perm num den false rs n =
      .ok (List.range (n_train_of num den n),
        (List.range (n_train_of num den n + n_test_of num den n)).drop
          (n_train_of num den n)) := by
  simp only [sk_train_test_split]
  rw [if_neg h]
  simp

theorem sk_ok_ntrain_ne_zero {perm : Option Nat → Nat → List Nat}
    {num den : Nat} {sh : Bool} {rs : Option Nat} {n : Nat}
    {idx : List Nat × List Nat}
    (h : sk_train_test_split perm num den sh rs n = .ok idx) :
    n_train_of num den n ≠ 0 := by
  intro hz
  rw [sk_error_of_ntrain_eq_zero perm num den sh rs n hz] at h
  simp at h

/-- With shuffle off, whenever the modelled sklearn split returns a pair,
that pair is a disjoint covering partition of the index range, for every
fraction at most one. -/
theorem sk_noshuffle_partition (perm : Option Nat → Nat → List Nat)
    (num den : Nat) (rs : Option Nat) (hnum : num ≤ den) (hden : 0 < den) :
    ∀ n idx, sk_train_test_split perm num den false rs n = .ok idx →
      ((idx.1 ++ idx.2)).Perm (List.range n) := by
  intro n idx h
  have hz := sk_ok_ntrain_ne_zero h
  rw [sk_ok_of_ntrain_ne_zero perm num den rs n hz] at h
  simp only [Except.ok.injEq] at h
  rw [← h]
  show (List.range (n_train_of num den n) ++
      (List.range (n_train_of num den n + n_test_of num den n)).drop
        (n_train_of num den n)).Perm (List.range n)
  rw [n_train_add_n_test num den n hnum hden]
  have htr : n_train_of num den n ≤ n := Nat.sub_le _ _
  have htake : List.range (n_train_of num den n) =
      (List.range n).take (n_train_of num den n) := by
    rw [List.take_range]
    congr 1
    omega
  rw [htake, List.take_append_drop]

/-! Single-group tables, as used by the ordering and proportion claims. -/

theorem dedup_eq_single {l : List Nat} {a : Nat} (hne : l ≠ [])
    (hall : ∀ x ∈ l, x = a) : l.dedup = [a] := by
  induction l with
  | nil => exact absurd rfl hne
  | cons x xs ih =>
    have hx : x = a := hall x (List.mem_cons_self _ _)
    subst hx
    by_cases hxs : xs = []
    · subst hxs; simp
    · have hall' : ∀ z ∈ xs, z = x :=
        fun z hz => hall z (List.mem_cons_of_mem _ hz)
      have hmem : x ∈ xs := by
        obtain ⟨z, hz⟩ := List.exists_mem_of_ne_nil _ hxs
        rw [← hall' z hz]
        exact hz
      rw [List.dedup_cons_of_mem hmem]
      exact ih hxs hall'

theorem subjectsOf_single {info : List Row} {s t : Nat} (hne : info ≠ [])
    (hall : ∀ r ∈ info, r.subject_id = s ∧ r.trial_id = t) :
    subjectsOf info = [s] ∧ trialsOf info = [t] := by
  constructor
  · apply dedup_eq_single (by simpa using hne)
    intro x hx
    obtain ⟨r, hr, hxr⟩ := List.mem_map.mp hx
    rw [← hxr]
    exact (hall r hr).1
  · apply dedup_eq_single (by simpa using hne)
    intro x hx
    obtain ⟨r, hr, hxr⟩ := List.mem_map.mp hx
    rw [← hxr]
    exact (hall r hr).2

theorem groupOf_all {info : List Row} {s t : Nat}
    (hall : ∀ r ∈ info, r.subject_id = s ∧ r.trial_id = t) :
    groupOf info s t = (withIdx 0 info).map fun p => ⟨p.1, p.2⟩ := by
  unfold groupOf
  congr 1
  apply List.filter_eq_self.mpr
  intro p hp
  obtain ⟨j, hj, _⟩ := (mem_withIdx info 0 p).mp hp
  have hr : p.2 ∈ info := List.getElem?_mem hj
  obtain ⟨h1, h2⟩ := hall p.2 hr
  simp [h1, h2]

theorem groupOf_all_length {info : List Row} {s t : Nat}
    (hall : ∀ r ∈ info, r.subject_id = s ∧ r.trial_id = t) :
    (groupOf info s t).length = info.length := by
  rw [groupOf_all hall, List.length_map, withIdx_length]

/-! The claims. -/

/-- C1: for every (subject_id, trial_id) group of the input metadata
table, on a fresh split_path the set of row identities assigned to the
train output and the set assigned to the test output are disjoint, and
their union equals the full row set of the group, assuming the underlying
split-proportion routine returns a disjoint covering pair of index sets
(stated as: whenever the routine returns a pair, the two index lists
appended are a permutation of range n). -/
theorem C1_group_rows_disjoint_cover
    (split : Nat → Except String (List Nat × List Nat)) (d : Dataset)
    (path : String) (fs : FS) (s t : Nat) (a b : IDataset) (fs' : FS)
    (hsplit : ∀ n idx, split n = .ok idx →
      ((idx.1 ++ idx.2)).Perm (List.range n))
    (hfresh : fsFind path fs = none)
    (hok : train_test_split_groupby_trial split d path fs = (.ok (a, b), fs')) :
    Disjoint (groupIdx s t a.info) (groupIdx s t b.info) ∧
      groupIdx s t a.info ∪ groupIdx s t b.info =
        ((groupOf d.info s t).map IRow.index).toFinset := by
  obtain ⟨ha, hb, -, hall⟩ := tts_fresh_ok_inv hfresh hok
  have ha' : a.info = trainTable split d.info := by rw [ha]
  have hb' : b.info = testTable split d.info := by rw [hb]
  rw [ha', hb']
  unfold groupIdx
  rw [filterGroup_trainTable split d.info s t, filterGroup_testTable split d.info s t]
  by_cases hmem : (s, t) ∈ pairsOf (subjectsOf d.info) (trialsOf d.info)
  · rw [if_pos hmem, if_pos hmem]
    obtain ⟨idx, hidx⟩ := hall (s, t) hmem
    have hperm := pieces_perm_groupOf split d.info s t idx hidx
      (hsplit _ idx hidx)
    have hpermIdx := hperm.map IRow.index
    rw [List.map_append] at hpermIdx
    have hnd : ((groupOf d.info s t).map IRow.index).Nodup :=
      groupOf_map_index_nodup d.info s t
    have hnd2 : ((trainPiece split d.info (s, t)).map IRow.index ++
        (testPiece split d.info (s, t)).map IRow.index).Nodup :=
      (hpermIdx.nodup_iff).mpr hnd
    obtain ⟨-, -, hdisj⟩ := List.nodup_append.mp hnd2
    constructor
    · exact List.disjoint_toFinset_iff_disjoint.mpr hdisj
    · rw [← List.toFinset_append]
      exact List.toFinset_eq_of_perm _ _ hpermIdx
  · rw [if_neg hmem, if_neg hmem, groupOf_eq_nil_of_not_mem_pairsOf hmem]
    simp

/-- Witness for C1: the four-row table exD split at its defaults, group
(1, 1); the train output holds rows 0 and 2, the test output rows 1
and 3. -/
theorem C1_witness :
    Disjoint
        (groupIdx 1 1 (⟨0, [⟨0, ⟨1, 1, []⟩⟩, ⟨2, ⟨2, 1, []⟩⟩]⟩ : IDataset).info)
        (groupIdx 1 1 (⟨0, [⟨1, ⟨1, 1, []⟩⟩, ⟨3, ⟨2, 1, []⟩⟩]⟩ : IDataset).info) ∧
      groupIdx 1 1 (⟨0, [⟨0, ⟨1, 1, []⟩⟩, ⟨2, ⟨2, 1, []⟩⟩]⟩ : IDataset).info ∪
          groupIdx 1 1 (⟨0, [⟨1, ⟨1, 1, []⟩⟩, ⟨3, ⟨2, 1, []⟩⟩]⟩ : IDataset).info =
        ((groupOf exD.info 1 1).map IRow.index).toFinset :=
  C1_group_rows_disjoint_cover split₀ exD "ex" [] 1 1
    ⟨0, [⟨0, ⟨1, 1, []⟩⟩, ⟨2, ⟨2, 1, []⟩⟩]⟩
    ⟨0, [⟨1, ⟨1, 1, []⟩⟩, ⟨3, ⟨2, 1, []⟩⟩]⟩
    [("ex", some ([⟨0, ⟨1, 1, []⟩⟩, ⟨2, ⟨2, 1, []⟩⟩],
      [⟨1, ⟨1, 1, []⟩⟩, ⟨3, ⟨2, 1, []⟩⟩]))]
    (sk_noshuffle_partition perm0 1 5 none (by omega) (by omega)) rfl rfl

/-- C2: if split_path already exists, the call skips the computation and
returns the persisted split: after a first call on a fresh path, a second
call at the same path with any split parameters (and any dataset) returns
the tables produced by the first call and leaves the filesystem
unchanged. -/
theorem C2_cache_reuse
    (split1 split2 : Nat → Except String (List Nat × List Nat))
    (d d2 : Dataset) (path : String) (fs : FS) (a b : IDataset) (fs1 : FS)
    (hfresh : fsFind path fs = none)
    (h1 : train_test_split_groupby_trial split1 d path fs = (.ok (a, b), fs1)) :
    train_test_split_groupby_trial split2 d2 path fs1 =
      (.ok (⟨d2.payload, a.info⟩, ⟨d2.payload, b.info⟩), fs1) := by
  obtain ⟨ha, hb, hfs, -⟩ := tts_fresh_ok_inv hfresh h1
  have ha' : a.info = trainTable split1 d.info := by rw [ha]
  have hb' : b.info = testTable split1 d.info := by rw [hb]
  rw [ha', hb', hfs]
  unfold train_test_split_groupby_trial
  simp [fsFind]

/-- Witness for C2: a second call on the populated path "ex" with
test_size 0.5 still returns the split computed with test_size 0.2. -/
theorem C2_witness :
    train_test_split_groupby_trial split₁ exD "ex"
        [("ex", some ([⟨0, ⟨1, 1, []⟩⟩, ⟨2, ⟨2, 1, []⟩⟩],
          [⟨1, ⟨1, 1, []⟩⟩, ⟨3, ⟨2, 1, []⟩⟩]))] =
      (.ok (⟨0, [⟨0, ⟨1, 1, []⟩⟩, ⟨2, ⟨2, 1, []⟩⟩]⟩,
          ⟨0, [⟨1, ⟨1, 1, []⟩⟩, ⟨3, ⟨2, 1, []⟩⟩]⟩),
        [("ex", some ([⟨0, ⟨1, 1, []⟩⟩, ⟨2, ⟨2, 1, []⟩⟩],
          [⟨1, ⟨1, 1, []⟩⟩, ⟨3, ⟨2, 1, []⟩⟩]))]) :=
  C2_cache_reuse split₀ split₁ exD exD "ex" []
    ⟨0, [⟨0, ⟨1, 1, []⟩⟩, ⟨2, ⟨2, 1, []⟩⟩]⟩
    ⟨0, [⟨1, ⟨1, 1, []⟩⟩, ⟨3, ⟨2, 1, []⟩⟩]⟩
    [("ex", some ([⟨0, ⟨1, 1, []⟩⟩, ⟨2, ⟨2, 1, []⟩⟩],
      [⟨1, ⟨1, 1, []⟩⟩, ⟨3, ⟨2, 1, []⟩⟩]))]
    rfl rfl

/-- The per-group selection with shuffle off, in a run where the group's
split call succeeded (its train set is nonempty): the train piece is the
initial segment of the group and the test piece the following segment. -/
theorem pieces_noshuffle (perm : Option Nat → Nat → List Nat)
    (num den : Nat) (rs : Option Nat) (info : List Row) (s t : Nat)
    (h : n_train_of num den (groupOf info s t).length ≠ 0) :
    trainPiece (sk_train_test_split perm num den false rs) info (s, t) =
      (groupOf info s t).take (n_train_of num den (groupOf info s t).length) ∧
      testPiece (sk_train_test_split perm num den false rs) info (s, t) =
        ((groupOf info s t).drop
            (n_train_of num den (groupOf info s t).length)).take
          (n_test_of num den (groupOf info s t).length) := by
  have hsk := sk_ok_of_ntrain_ne_zero perm num den rs (groupOf info s t).length h
  constructor
  · show takeRows (groupOf info s t)
        (idxOf (sk_train_test_split perm num den false rs)
          (groupOf info s t).length).1 = _
    rw [idxOf_eq_of_ok hsk]
    exact takeRows_range _ _
  · show takeRows (groupOf info s t)
        (idxOf (sk_train_test_split perm num den false rs)
          (groupOf info s t).length).2 = _
    rw [idxOf_eq_of_ok hsk]
    exact takeRows_range_drop _ _ _

/-- C3: with shuffle off and test_size 0.2, every group of ten rows
r0..r9 (listed in original table order by groupOf) contributes exactly
its first eight rows to the train output and its last two rows to the
test output, each side keeping the original order with no permutation. -/
theorem C3_noshuffle_order
    (perm : Option Nat → Nat → List Nat) (rs : Option Nat) (d : Dataset)
    (path : String) (fs : FS) (s t : Nat) (a b : IDataset) (fs' : FS)
    (hlen : (groupOf d.info s t).length = 10)
    (hfresh : fsFind path fs = none)
    (hok : train_test_split_groupby_trial
      (sk_train_test_split perm 1 5 false rs) d path fs = (.ok (a, b), fs')) :
    filterGroup s t a.info = (groupOf d.info s t).take 8 ∧
      filterGroup s t b.info = (groupOf d.info s t).drop 8 := by
  obtain ⟨ha, hb, -, -⟩ := tts_fresh_ok_inv hfresh hok
  have ha' : a.info = trainTable (sk_train_test_split perm 1 5 false rs) d.info := by
    rw [ha]
  have hb' : b.info = testTable (sk_train_test_split perm 1 5 false rs) d.info := by
    rw [hb]
  have hne : groupOf d.info s t ≠ [] := by
    intro h
    rw [h] at hlen
    simp at hlen
  have hmem := mem_pairsOf_of_groupOf_ne_nil hne
  rw [ha', hb', filterGroup_trainTable, filterGroup_testTable,
    if_pos hmem, if_pos hmem]
  have hnz : n_train_of 1 5 (groupOf d.info s t).length ≠ 0 := by
    rw [hlen]
    decide
  obtain ⟨hp1, hp2⟩ := pieces_noshuffle perm 1 5 rs d.info s t hnz
  rw [hp1, hp2, hlen]
  rw [show n_train_of 1 5 10 = 8 from rfl, show n_test_of 1 5 10 = 2 from rfl]
  refine ⟨rfl, ?_⟩
  have hdl : ((groupOf d.info s t).drop 8).length ≤ 2 := by
    rw [List.length_drop, hlen]
  exact List.take_of_length_le hdl

/-- Witness for C3: the ten-row single-group table splits into its first
eight rows and its last two rows, in order. -/
theorem C3_witness :
    filterGroup 3 7 (⟨0, tenTrain⟩ : IDataset).info =
        (groupOf tenD.info 3 7).take 8 ∧
      filterGroup 3 7 (⟨0, tenTest⟩ : IDataset).info =
        (groupOf tenD.info 3 7).drop 8 :=
  C3_noshuffle_order perm0 none tenD "t" [] 3 7 ⟨0, tenTrain⟩ ⟨0, tenTest⟩
    [("t", some (tenTrain, tenTest))] rfl rfl rfl

/-- C5: with shuffle off and fraction num/den at most one, for every
(subject, trial) group of n rows, the test output holds exactly the count
of rows the modelled sklearn routine returns for n (whenever it returns),
namely ceil(num * n / den), and the train output holds the remaining
n minus that count rows of the group; in particular at n = 10 and
test_size 0.2 the counts are 8 and 2. -/
theorem C5_proportion
    (perm : Option Nat → Nat → List Nat) (rs : Option Nat) (num den : Nat)
    (d : Dataset) (path : String) (fs : FS) (a b : IDataset) (fs' : FS)
    (hnum : num ≤ den) (hden : 0 < den)
    (hfresh : fsFind path fs = none)
    (hok : train_test_split_groupby_trial
      (sk_train_test_split perm num den false rs) d path fs = (.ok (a, b), fs')) :
    (∀ s t,
      (∀ idx, sk_train_test_split perm num den false rs
          (groupOf d.info s t).length = .ok idx →
          (filterGroup s t b.info).length = idx.2.length) ∧
        (filterGroup s t b.info).length =
          n_test_of num den (groupOf d.info s t).length ∧
        (filterGroup s t a.info).length =
          (groupOf d.info s t).length -
            n_test_of num den (groupOf d.info s t).length) ∧
      (n_test_of 1 5 10 = 2 ∧ n_train_of 1 5 10 = 8) := by
  obtain ⟨ha, hb, -, hall⟩ := tts_fresh_ok_inv hfresh hok
  have ha' : a.info =
      trainTable (sk_train_test_split perm num den false rs) d.info := by
    rw [ha]
  have hb' : b.info =
      testTable (sk_train_test_split perm num den false rs) d.info := by
    rw [hb]
  refine ⟨?_, rfl, rfl⟩
  intro s t
  have hle := n_test_of_le num den (groupOf d.info s t).length hnum hden
  rw [ha', hb', filterGroup_trainTable, filterGroup_testTable]
  by_cases hmem : (s, t) ∈ pairsOf (subjectsOf d.info) (trialsOf d.info)
  · rw [if_pos hmem, if_pos hmem]
    obtain ⟨idx0, hidx0⟩ := hall (s, t) hmem
    have hnz : n_train_of num den (groupOf d.info s t).length ≠ 0 :=
      sk_ok_ntrain_ne_zero hidx0
    obtain ⟨hp1, hp2⟩ := pieces_noshuffle perm num den rs d.info s t hnz
    rw [hp1, hp2]
    refine ⟨?_, ?_, ?_⟩
    · intro idx hidx
      rw [sk_ok_of_ntrain_ne_zero perm num den rs _ hnz] at hidx
      simp only [Except.ok.injEq] at hidx
      subst hidx
      show _ = ((List.range (n_train_of num den (groupOf d.info s t).length +
          n_test_of num den (groupOf d.info s t).length)).drop
        (n_train_of num den (groupOf d.info s t).length)).length
      rw [List.length_take, List.length_drop, List.length_drop,
        List.length_range]
      unfold n_train_of
      omega
    · rw [List.length_take, List.length_drop]
      unfold n_train_of
      omega
    · rw [List.length_take]
      unfold n_train_of
      omega
  · rw [if_neg hmem, if_neg hmem,
      groupOf_eq_nil_of_not_mem_pairsOf hmem]
    have hz : n_test_of num den 0 = 0 := by
      unfold n_test_of
      rw [Nat.mul_zero, Nat.zero_add]
      exact Nat.div_eq_of_lt (by omega)
    have h0 : n_train_of num den (([] : List IRow)).length = 0 := by
      unfold n_train_of
      simp only [List.length_nil]
      omega
    refine ⟨?_, ?_, ?_⟩
    · intro idx hidx
      exact absurd h0 (sk_ok_ntrain_ne_zero hidx)
    · simp [hz]
    · simp

/-- Witness for C5: the ten-row single-group table at test_size 0.2, read
at group (3, 7): two test rows, eight train rows, matching the index pair
the routine returns at n = 10. -/
theorem C5_witness :
    ((filterGroup 3 7 (⟨0, tenTest⟩ : IDataset).info).length =
          (([0, 1, 2, 3, 4, 5, 6, 7], [8, 9]) :
            List Nat × List Nat).2.length ∧
        (filterGroup 3 7 (⟨0, tenTest⟩ : IDataset).info).length =
          n_test_of 1 5 (groupOf tenD.info 3 7).length ∧
        (filterGroup 3 7 (⟨0, tenTrain⟩ : IDataset).info).length =
          (groupOf tenD.info 3 7).length -
            n_test_of 1 5 (groupOf tenD.info 3 7).length) ∧
      (n_test_of 1 5 10 = 2 ∧ n_train_of 1 5 10 = 8) :=
  ⟨⟨((C5_proportion perm0 none 1 5 tenD "t" [] ⟨0, tenTrain⟩ ⟨0, tenTest⟩
        [("t", some (tenTrain, tenTest))] (by omega) (by omega) rfl rfl).1
        3 7).1 ([0, 1, 2, 3, 4, 5, 6, 7], [8, 9]) rfl,
      ((C5_proportion perm0 none 1 5 tenD "t" [] ⟨0, tenTrain⟩ ⟨0, tenTest⟩
        [("t", some (tenTrain, tenTest))] (by omega) (by omega) rfl rfl).1
        3 7).2⟩,
    (C5_proportion perm0 none 1 5 tenD "t" [] ⟨0, tenTrain⟩ ⟨0, tenTest⟩
      [("t", some (tenTrain, tenTest))] (by omega) (by omega) rfl rfl).2⟩

/-- C4 counterexample: pandas reset_index() adds an "index" column, so
the output tables carry one more column than the source table.  The run
uses a two-row group, on which sklearn succeeds (n_test = ceil(0.4) = 1,
n_train = 1): the test output holds the second source row tagged with
index 1, and the output column set differs from the source column set:
it gains "index". -/
theorem C4_counterexample :
    (train_test_split_groupby_trial split₀ ⟨0, [cexRow, cexRow]⟩ "p" []).1 =
        Except.ok (⟨0, [⟨0, cexRow⟩]⟩, ⟨0, [⟨1, cexRow⟩]⟩) ∧
      (IRow.columns ⟨0, cexRow⟩).toFinset ≠ cexRow.columns.toFinset ∧
      "index" ∈ IRow.columns ⟨0, cexRow⟩ ∧ "index" ∉ cexRow.columns := by
  refine ⟨rfl, ?_, ?_, ?_⟩ <;> decide

/-- C4 amended: on a fresh split_path, every row of the two output tables
is a row of the source table carried verbatim, tagged with its original
position in the added leading "index" column; so the output column set is
the source column set plus "index", and all source-column values match
the corresponding source row exactly. -/
theorem C4_rows_verbatim_plus_index
    (split : Nat → Except String (List Nat × List Nat)) (d : Dataset)
    (path : String) (fs : FS) (a b : IDataset) (fs' : FS)
    (hfresh : fsFind path fs = none)
    (hok : train_test_split_groupby_trial split d path fs = (.ok (a, b), fs')) :
    ∀ ir ∈ a.info ++ b.info,
      d.info[ir.index]? = some ir.row ∧
        ir.columns = "index" :: ir.row.columns := by
  obtain ⟨ha, hb, -, -⟩ := tts_fresh_ok_inv hfresh hok
  have ha' : a.info = trainTable split d.info := by rw [ha]
  have hb' : b.info = testTable split d.info := by rw [hb]
  intro ir hir
  refine ⟨?_, rfl⟩
  rcases List.mem_append.mp hir with h | h
  · rw [ha'] at h
    obtain ⟨piece, hpiece, hmem⟩ := List.mem_flatten.mp h
    obtain ⟨q, -, hq⟩ := List.mem_map.mp hpiece
    rw [← hq] at hmem
    exact (mem_groupOf (mem_trainPiece_groupOf hmem)).2.2
  · rw [hb'] at h
    obtain ⟨piece, hpiece, hmem⟩ := List.mem_flatten.mp h
    obtain ⟨q, -, hq⟩ := List.mem_map.mp hpiece
    rw [← hq] at hmem
    exact (mem_groupOf (mem_testPiece_groupOf hmem)).2.2

/-- Witness for the amended C4 at the two-row table: the test output row
is the source row at position 1, with the added "index" column. -/
theorem C4_witness :
    ([cexRow, cexRow] : List Row)[(1 : Nat)]? = some cexRow ∧
      IRow.columns ⟨1, cexRow⟩ = "index" :: cexRow.columns :=
  C4_rows_verbatim_plus_index split₀ ⟨0, [cexRow, cexRow]⟩ "p" []
    ⟨0, [⟨0, cexRow⟩]⟩ ⟨0, [⟨1, cexRow⟩]⟩
    [("p", some ([⟨0, cexRow⟩], [⟨1, cexRow⟩]))]
    rfl rfl ⟨1, cexRow⟩ (by simp)

/-- C6: with test_size 0.2, shuffle on and random_state 42, two calls on
the same dataset at two fresh paths return identical train and test
datasets, hence identical row sets.  The permutation source perm is a
function of the seed, modelling that numpy RandomState(42) yields the
same permutations in both calls. -/
theorem C6_seed_determinism
    (perm : Option Nat → Nat → List Nat) (d : Dataset)
    (p1 p2 : String) (fs1 fs2 : FS)
    (h1 : fsFind p1 fs1 = none) (h2 : fsFind p2 fs2 = none) :
    (train_test_split_groupby_trial
        (sk_train_test_split perm 1 5 true (some 42)) d p1 fs1).1 =
      (train_test_split_groupby_trial
        (sk_train_test_split perm 1 5 true (some 42)) d p2 fs2).1 := by
  unfold train_test_split_groupby_trial
  rw [h1, h2]
  cases hc : compute_split (sk_train_test_split perm 1 5 true (some 42)) d.info with
  | error e => rfl
  | ok p =>
    obtain ⟨tr, te⟩ := p
    rfl

/-- Witness for C6 at the four-row table and two fresh paths. -/
theorem C6_witness :
    (train_test_split_groupby_trial
        (sk_train_test_split perm0 1 5 true (some 42)) exD "a" []).1 =
      (train_test_split_groupby_trial
        (sk_train_test_split perm0 1 5 true (some 42)) exD "b" []).1 :=
  C6_seed_determinism perm0 exD "a" "b" [] [] rfl rfl

/-- C7: with shuffle off, random_state has no effect: calls with any two
seeds on fresh paths return identical results, because the no-shuffle
branch of the split routine never consults the seed. -/
theorem C7_random_state_inert_without_shuffle
    (perm : Option Nat → Nat → List Nat) (num den : Nat)
    (r1 r2 : Option Nat) (d : Dataset) (p1 p2 : String) (fs1 fs2 : FS)
    (h1 : fsFind p1 fs1 = none) (h2 : fsFind p2 fs2 = none) :
    (train_test_split_groupby_trial
        (sk_train_test_split perm num den false r1) d p1 fs1).1 =
      (train_test_split_groupby_trial
        (sk_train_test_split perm num den false r2) d p2 fs2).1 := by
  have hsk : sk_train_test_split perm num den false r1 =
      sk_train_test_split perm num den false r2 := by
    funext n
    rfl
  rw [hsk]
  unfold train_test_split_groupby_trial
  rw [h1, h2]
  cases hc : compute_split (sk_train_test_split perm num den false r2) d.info with
  | error e => rfl
  | ok p =>
    obtain ⟨tr, te⟩ := p
    rfl

/-- Witness for C7: seeds 1 and 2 with shuffle off agree on exD. -/
theorem C7_witness :
    (train_test_split_groupby_trial
        (sk_train_test_split perm0 1 5 false (some 1)) exD "a" []).1 =
      (train_test_split_groupby_trial
        (sk_train_test_split perm0 1 5 false (some 2)) exD "b" []).1 :=
  C7_random_state_inert_without_shuffle perm0 1 5 (some 1) (some 2) exD
    "a" "b" [] [] rfl rfl

/-- C8: on a fresh split_path, the output tables are the concatenations of
the per-group pieces over the full cross product of the distinct subject
and distinct trial enumerations, in enumeration order.  The closed
conjunct exhibits the run at demoD, whose train output carries the index
column values [1, 0]: group order, not the original table order. -/
theorem C8_cross_product_enumeration_order
    (split : Nat → Except String (List Nat × List Nat)) (d : Dataset)
    (path : String) (fs : FS) (a b : IDataset) (fs' : FS)
    (hfresh : fsFind path fs = none)
    (hok : train_test_split_groupby_trial split d path fs = (.ok (a, b), fs')) :
    (a.info = ((pairsOf (subjectsOf d.info) (trialsOf d.info)).map
        (trainPiece split d.info)).flatten ∧
      b.info = ((pairsOf (subjectsOf d.info) (trialsOf d.info)).map
        (testPiece split d.info)).flatten) ∧
      ((train_test_split_groupby_trial split₀ demoD "demo" []).1 =
          Except.ok (⟨0, [⟨1, ⟨2, 1, []⟩⟩, ⟨0, ⟨1, 1, []⟩⟩]⟩,
            ⟨0, [⟨2, ⟨2, 1, []⟩⟩, ⟨3, ⟨1, 1, []⟩⟩]⟩) ∧
        [⟨1, ⟨2, 1, []⟩⟩, ⟨0, ⟨1, 1, []⟩⟩].map IRow.index = [1, 0]) := by
  obtain ⟨ha, hb, -, -⟩ := tts_fresh_ok_inv hfresh hok
  refine ⟨⟨?_, ?_⟩, rfl, rfl⟩
  · rw [ha]
    rfl
  · rw [hb]
    rfl

/-- Witness for C8 at demoD: subject 2 is enumerated before subject 1, so
the train table lists row 1 before row 0. -/
theorem C8_witness :
    ((⟨0, [⟨1, ⟨2, 1, []⟩⟩, ⟨0, ⟨1, 1, []⟩⟩]⟩ : IDataset).info =
        ((pairsOf (subjectsOf demoD.info) (trialsOf demoD.info)).map
          (trainPiece split₀ demoD.info)).flatten ∧
      (⟨0, [⟨2, ⟨2, 1, []⟩⟩, ⟨3, ⟨1, 1, []⟩⟩]⟩ : IDataset).info =
        ((pairsOf (subjectsOf demoD.info) (trialsOf demoD.info)).map
          (testPiece split₀ demoD.info)).flatten) ∧
      ((train_test_split_groupby_trial split₀ demoD "demo" []).1 =
          Except.ok (⟨0, [⟨1, ⟨2, 1, []⟩⟩, ⟨0, ⟨1, 1, []⟩⟩]⟩,
            ⟨0, [⟨2, ⟨2, 1, []⟩⟩, ⟨3, ⟨1, 1, []⟩⟩]⟩) ∧
        [⟨1, ⟨2, 1, []⟩⟩, ⟨0, ⟨1, 1, []⟩⟩].map IRow.index = [1, 0]) :=
  C8_cross_product_enumeration_order split₀ demoD "demo" []
    ⟨0, [⟨1, ⟨2, 1, []⟩⟩, ⟨0, ⟨1, 1, []⟩⟩]⟩
    ⟨0, [⟨2, ⟨2, 1, []⟩⟩, ⟨3, ⟨1, 1, []⟩⟩]⟩
    [("demo", some ([⟨1, ⟨2, 1, []⟩⟩, ⟨0, ⟨1, 1, []⟩⟩],
      [⟨2, ⟨2, 1, []⟩⟩, ⟨3, ⟨1, 1, []⟩⟩]))]
    rfl rfl

/-- C9: the returned datasets are shallow copies of the input: they carry
the payload of the input dataset (every attribute other than info, in
particular the sample storage) unchanged, and each carries as its own
info table exactly the tables persisted under split_path; the input
dataset itself is a value and is not modified. -/
theorem C9_shallow_copies
    (split : Nat → Except String (List Nat × List Nat)) (d : Dataset)
    (path : String) (fs : FS) (a b : IDataset) (fs' : FS)
    (hok : train_test_split_groupby_trial split d path fs = (.ok (a, b), fs')) :
    a.payload = d.payload ∧ b.payload = d.payload ∧
      fsFind path fs' = some (some (a.info, b.info)) := by
  unfold train_test_split_groupby_trial at hok
  cases hf : fsFind path fs with
  | some m =>
    rw [hf] at hok
    cases m with
    | none => simp at hok
    | some p =>
      obtain ⟨tr, te⟩ := p
      simp only [Prod.mk.injEq, Except.ok.injEq] at hok
      obtain ⟨⟨ha, hb⟩, hfs⟩ := hok
      refine ⟨by rw [← ha], by rw [← hb], ?_⟩
      rw [← hfs, hf, ← ha, ← hb]
  | none =>
    rw [hf] at hok
    cases hc : compute_split split d.info with
    | error e =>
      rw [hc] at hok
      simp at hok
    | ok p =>
      obtain ⟨tr, te⟩ := p
      rw [hc] at hok
      simp only [Prod.mk.injEq, Except.ok.injEq] at hok
      obtain ⟨⟨ha, hb⟩, hfs⟩ := hok
      refine ⟨by rw [← ha], by rw [← hb], ?_⟩
      rw [← hfs, ← ha, ← hb]
      simp [fsFind]

/-- Witness for C9 at the four-row table: payloads are shared and the
returned tables are the persisted ones. -/
theorem C9_witness :
    (⟨0, [⟨0, ⟨1, 1, []⟩⟩, ⟨2, ⟨2, 1, []⟩⟩]⟩ : IDataset).payload =
        exD.payload ∧
      (⟨0, [⟨1, ⟨1, 1, []⟩⟩, ⟨3, ⟨2, 1, []⟩⟩]⟩ : IDataset).payload =
        exD.payload ∧
      fsFind "ex" [("ex", some ([⟨0, ⟨1, 1, []⟩⟩, ⟨2, ⟨2, 1, []⟩⟩],
          [⟨1, ⟨1, 1, []⟩⟩, ⟨3, ⟨2, 1, []⟩⟩]))] =
        some (some
          ((⟨0, [⟨0, ⟨1, 1, []⟩⟩, ⟨2, ⟨2, 1, []⟩⟩]⟩ : IDataset).info,
            (⟨0, [⟨1, ⟨1, 1, []⟩⟩, ⟨3, ⟨2, 1, []⟩⟩]⟩ : IDataset).info)) :=
  C9_shallow_copies split₀ exD "ex" []
    ⟨0, [⟨0, ⟨1, 1, []⟩⟩, ⟨2, ⟨2, 1, []⟩⟩]⟩
    ⟨0, [⟨1, ⟨1, 1, []⟩⟩, ⟨3, ⟨2, 1, []⟩⟩]⟩
    [("ex", some ([⟨0, ⟨1, 1, []⟩⟩, ⟨2, ⟨2, 1, []⟩⟩],
      [⟨1, ⟨1, 1, []⟩⟩, ⟨3, ⟨2, 1, []⟩⟩]))]
    rfl

/-- C10: on a fresh split_path with an empty metadata table, the nested
loop never runs, the accumulators stay None and pd.concat raises a
TypeError after the split directory has already been created; no pair of
empty datasets is returned. -/
theorem C10_empty_table_error
    (split : Nat → Except String (List Nat × List Nat)) (d : Dataset)
    (path : String) (fs : FS)
    (hempty : d.info = []) (hfresh : fsFind path fs = none) :
    train_test_split_groupby_trial split d path fs =
      (.error "TypeError: first argument must be an iterable of pandas objects",
        (path, none) :: fs) := by
  unfold train_test_split_groupby_trial
  rw [hfresh, hempty, compute_split_nil]

/-- Witness for C10 at the empty dataset. -/
theorem C10_witness :
    train_test_split_groupby_trial split₀ ⟨0, []⟩ "e" [] =
      (.error "TypeError: first argument must be an iterable of pandas objects",
        [("e", none)]) :=
  C10_empty_table_error split₀ ⟨0, []⟩ "e" [] rfl rfl

end SplitGroupbyTrial
